import Mathlib

/-!
# Credit card statement parser: upload controller and result presentation

Shallow embedding of the React front end
(`frontend/src/App.jsx`, `components/UploadForm.jsx`, `components/ResultsView.jsx`).

* The four `useState` cells of `App` become the record `State`.
* The event handlers become functions on `State`.  The `async` handler
  `handleUpload` is split at its `await`: `handleUploadStart` is the synchronous
  prefix (it reports the request it issues), `handleUploadSettle` is the
  continuation that runs when the request settles, and `handleUpload` is the
  two run back to back.
* `World` adds the list of requests in flight, `step` runs one handler, and
  `enabled` is the gating that `UploadForm` puts on its controls.
* The export of `ResultsView` is the text `JSON.stringify(result, null, 2)`;
  `Json.stringify` and `Json.parse` follow the ECMAScript definitions of the two
  built-ins, numbers included (binary64 rounding, shortest rendering).
-/

namespace CreditCardParser

/-! ## JavaScript values that cross the network -/

/-- A value produced by `response.json()`.  A number is identified by its
canonical ECMAScript rendering (`Number::toString`), so `0.92` is `num "0.92"`
and an overflowed literal is `num "Infinity"`; negative zero, which renders as
`0` like zero, is `num "-0"`.  An object is its list of own properties, in
order, each key once. -/
inductive Json where
  | null : Json
  | bool (b : Bool) : Json
  | num (text : String) : Json
  | str (s : String) : Json
  | arr (items : List Json) : Json
  | obj (props : List (String × Json)) : Json

namespace Json

/-- JavaScript `ToBoolean` on a parsed JSON value: `null`, `false`, both zeros
and the empty string are falsy, every array and object is truthy. -/
def truthy : Json → Bool
  | null => false
  | bool b => b
  | num text => text != "0" && text != "-0"
  | str s => s != ""
  | arr _ => true
  | obj _ => true

/-- Own property lookup in a property list. -/
def lookup (key : String) : List (String × Json) → Option Json
  | [] => none
  | (k, v) :: rest => if k = key then some v else lookup key rest

/-- Message of the `TypeError` raised when an object has no usable `toString`
or `valueOf` (the wording is the V8 one). -/
def toPrimitiveMessage : String :=
  "Cannot convert object to primitive value"

/-- The rendering of a number as `ToString` gives it: negative zero is `0`. -/
def numberToString (text : String) : String :=
  if text = "-0" then "0" else text

mutual
/-- JavaScript `ToString`, which `new Error(v)` applies to its argument: the
string, or the message of the `TypeError` it throws.  An object answers through
`Object.prototype.toString` unless an own `toString` property hides it; that
property is not callable, `valueOf` returns the object, and the conversion
throws. -/
def toStr : Json → Except String String
  | null => Except.ok "null"
  | bool b => Except.ok (if b then "true" else "false")
  | num text => Except.ok (numberToString text)
  | str s => Except.ok s
  | arr items => joinItems items
  | obj props =>
    if (lookup "toString" props).isSome then Except.error toPrimitiveMessage
    else Except.ok "[object Object]"
/-- The body of `Array.prototype.join(",")`: `null` elements render empty, the
others through `ToString`, from left to right. -/
def joinItems : List Json → Except String String
  | [] => Except.ok ""
  | [null] => Except.ok ""
  | [v] => toStr v
  | null :: rest =>
    match joinItems rest with
    | Except.error message => Except.error message
    | Except.ok tail => Except.ok ("," ++ tail)
  | v :: rest =>
    match toStr v with
    | Except.error message => Except.error message
    | Except.ok head =>
      match joinItems rest with
      | Except.error message => Except.error message
      | Except.ok tail => Except.ok (head ++ "," ++ tail)
end

end Json

/-! ## The controller state (`App.jsx`, lines 7-10) -/

/-- A browser `File` handle, as far as the front end reads it. -/
structure File where
  name : String
  type : String
  size : Nat
  deriving DecidableEq, Repr

/-- The four `useState` cells of `App`.  `result` holds a JavaScript value and
is `Json.null` while no result is stored; `error` is `none` for `null`. -/
structure State where
  file : Option File
  loading : Bool
  result : Json
  error : Option String

/-- The state `App` mounts with: `useState(null)`, `useState(false)`,
`useState(null)`, `useState(null)`. -/
def initialState : State :=
  { file := none, loading := false, result := Json.null, error := none }

/-! ## The remote call -/

/-- What the front end reads of a fetch `Response`: the status code, the status
text, and how `response.json()` settles (the rejection message, or the value). -/
structure Response where
  status : Nat
  statusText : String
  json : Except String Json

/-- The getter `response.ok`: the status is in the range 200-299. -/
def Response.ok (r : Response) : Bool :=
  decide (200 ≤ r.status) && decide (r.status ≤ 299)

/-- How `fetch` settles: it rejects with an error (transport failure), or it
resolves with a response. -/
inductive FetchOutcome where
  | rejected (message : String) : FetchOutcome
  | resolved (response : Response) : FetchOutcome

/-- Message of the `TypeError` raised by reading `errorData.detail` when
`errorData` is `null` (the wording is the V8 one; it differs between engines). -/
def nullDetailMessage : String :=
  "Cannot read properties of null (reading 'detail')"

/-- The own `detail` property of a value that is not `null`: objects have it or
not, no other value has one. -/
def ownDetail : Json → Option Json
  | Json.obj props => Json.lookup "detail" props
  | _ => none

/-- The expression `errorData.detail`: it throws on `null`, reads the own
property of an object, and is `undefined` (`none`) on every other value. -/
def getDetail : Json → Except String (Option Json)
  | Json.null => Except.error nullDetailMessage
  | v => Except.ok (ownDetail v)

/-- What `new Error(errorData.detail || "Upload failed: " + statusText)` does
(`App.jsx`, line 46): the message of the error built, or the message of the
`TypeError` thrown while converting a truthy `detail` to a string. -/
def uploadErrorMessage (detail : Option Json) (statusText : String) : Except String String :=
  match detail with
  | some d => if d.truthy then d.toStr else Except.ok ("Upload failed: " ++ statusText)
  | none => Except.ok ("Upload failed: " ++ statusText)

/-- The `try` block of `handleUpload` after `fetch` has settled (`App.jsx`,
lines 39-50): the value passed to `setResult`, or the message of the error thrown. -/
def uploadTry : FetchOutcome → Except String Json
  | FetchOutcome.rejected message => Except.error message
  | FetchOutcome.resolved response =>
    if !response.ok then
      match response.json with
      | Except.error message => Except.error message
      | Except.ok errorData =>
        match getDetail errorData with
        | Except.error message => Except.error message
        | Except.ok detail =>
          match uploadErrorMessage detail response.statusText with
          | Except.error message => Except.error message
          | Except.ok message => Except.error message
    else
      response.json

/-! ## The handlers of `App` -/

/-- The test `selectedFile && selectedFile.type === 'application/pdf'`. -/
def isPdf : Option File → Bool
  | some f => f.type == "application/pdf"
  | none => false

/-- The handler `handleFileChange` (`App.jsx`, lines 14-23). -/
def handleFileChange (s : State) (selectedFile : Option File) : State :=
  if isPdf selectedFile then
    { s with file := selectedFile, error := none, result := Json.null }
  else
    { s with error := some "Please select a valid PDF file", file := none }

/-- The synchronous prefix of `handleUpload` (`App.jsx`, lines 25-42), up to the
`await` on `fetch`: the new state, and the file of the `POST /upload` request it
issues (`none` when it returns without issuing one). -/
def handleUploadStart (s : State) : State × Option File :=
  match s.file with
  | none => ({ s with error := some "Please select a file first" }, none)
  | some f => ({ s with loading := true, error := none, result := Json.null }, some f)

/-- The continuation of `handleUpload` once the request has settled (`App.jsx`,
lines 44-56): `setResult(data)` or `setError(err.message)`, then
`setLoading(false)` in the `finally` block. -/
def handleUploadSettle (s : State) (o : FetchOutcome) : State :=
  match uploadTry o with
  | Except.ok data => { s with result := data, loading := false }
  | Except.error message => { s with error := some message, loading := false }

/-- The handler `handleUpload` run from its call to its completion, the request
settling as `o` (`App.jsx`, lines 25-57). -/
def handleUpload (s : State) (o : FetchOutcome) : State :=
  match handleUploadStart s with
  | (s1, none) => s1
  | (s1, some _) => handleUploadSettle s1 o

/-- The handler `handleReset` (`App.jsx`, lines 59-63). -/
def handleReset (s : State) : State :=
  { s with file := none, result := Json.null, error := none }

/-! ## The controller in its environment -/

/-- The controller state together with the files of the upload requests that
have been issued and have not settled yet, oldest first. -/
structure World where
  st : State
  inflight : List File

/-- The world at mount: the initial state, nothing in flight. -/
def initialWorld : World :=
  { st := initialState, inflight := [] }

/-- What can happen to the controller. -/
inductive Action where
  | fileChange (selectedFile : Option File) : Action
  | upload : Action
  | settle (o : FetchOutcome) : Action
  | reset : Action

/-- One action: a handler call, or the oldest request in flight settling and
its `handleUpload` resuming. -/
def step (w : World) : Action → World
  | Action.fileChange selectedFile => { w with st := handleFileChange w.st selectedFile }
  | Action.upload =>
    { st := (handleUploadStart w.st).1,
      inflight := w.inflight ++ (handleUploadStart w.st).2.toList }
  | Action.settle o =>
    match w.inflight with
    | [] => w
    | _ :: rest => { st := handleUploadSettle w.st o, inflight := rest }
  | Action.reset => { w with st := handleReset w.st }

/-- Any sequence of actions, no gating. -/
def run (w : World) : List Action → World
  | [] => w
  | a :: rest => run (step w a) rest

/-- The gating of `UploadForm.jsx`: the file input is `disabled={loading}`
(line 29), the submit button is `disabled={!file || loading}` (line 61), the
Remove button is rendered only with a file and is `disabled={loading}` (lines 34
and 51); a request settles only if one is in flight. -/
def enabled (w : World) : Action → Bool
  | Action.fileChange _ => !w.st.loading
  | Action.upload => w.st.file.isSome && !w.st.loading
  | Action.settle _ => !w.inflight.isEmpty
  | Action.reset => w.st.file.isSome && !w.st.loading

/-- A sequence of actions through the form: `none` as soon as an action is
one that the form does not let happen. -/
def runUI (w : World) : List Action → Option World
  | [] => some w
  | a :: rest => if enabled w a then runUI (step w a) rest else none

/-! ## Result presentation (`ResultsView.jsx`, lines 4-20) -/

/-- The binary64 value of the literal `0.8`. -/
def lit_0_8 : ℚ := 3602879701896397 / 4503599627370496

/-- The binary64 value of the literal `0.6`. -/
def lit_0_6 : ℚ := 5404319552844595 / 9007199254740992

/-- The function `getConfidenceColor`; a score is a finite number, taken with
its exact value. -/
def getConfidenceColor (score : ℚ) : String :=
  if score ≥ lit_0_8 then "text-green-600"
  else if score ≥ lit_0_6 then "text-yellow-600"
  else "text-red-600"

/-- The function `getConfidenceBadge`. -/
def getConfidenceBadge (score : ℚ) : String :=
  if score ≥ lit_0_8 then "bg-green-100 text-green-800 border-green-200"
  else if score ≥ lit_0_6 then "bg-yellow-100 text-yellow-800 border-yellow-200"
  else "bg-red-100 text-red-800 border-red-200"

/-- The function `getConfidenceLabel`. -/
def getConfidenceLabel (score : ℚ) : String :=
  if score ≥ lit_0_8 then "High Confidence"
  else if score ≥ lit_0_6 then "Medium Confidence"
  else "Low Confidence"

/-! ## Export (`ResultsView.jsx`, lines 22-31)

The document is `JSON.stringify(result, null, 2)`.  Below are the two built-ins it
involves, `JSON.stringify` with a gap of two spaces and `JSON.parse`, and first the
reading and rendering of numbers: a JSON number literal denotes the binary64 value
nearest to it, and a binary64 value is rendered with the fewest digits that read
back as that value. -/

namespace Json

/-! ### Numbers -/

/-- The fraction `num / (den * base ^ e)`, for an exponent of either sign. -/
def scaleDown (num den base : Nat) (e : Int) : Nat × Nat :=
  if 0 ≤ e then (num, den * base ^ e.toNat) else (num * base ^ (-e).toNat, den)

/-- The integer `f` with `base ^ f ≤ num / den < base ^ (f + 1)`, for `num, den > 0`. -/
def floorLog (base num den : Nat) : Int :=
  let d : Int := ((Nat.toDigits base num).length : Int) - ((Nat.toDigits base den).length : Int)
  let p := scaleDown num den base d
  if p.2 ≤ p.1 then d else d - 1

/-- Round to nearest, ties to even: the quotient `num / den` as an integer. -/
def roundHalfEven (num den : Nat) : Nat :=
  let q := num / den
  let r := num % den
  if den < 2 * r ∨ (2 * r = den ∧ q % 2 = 1) then q + 1 else q

/-- The binary64 value nearest to `num / den` (ties to even), as `(m, e)` for
`m * 2 ^ e` with `m < 2 ^ 53` and `e ≥ -1074`; `none` when the value overflows. -/
def roundBinary64 (num den : Nat) : Option (Nat × Int) :=
  if num = 0 then some (0, -1074)
  else
    let e : Int := max (floorLog 2 num den - 52) (-1074)
    let p := scaleDown num den 2 e
    let m := roundHalfEven p.1 p.2
    let me : Nat × Int := if m = 2 ^ 53 then (2 ^ 52, e + 1) else (m, e)
    if 971 < me.2 then none else some me

/-- The binary64 value nearest to `s * 10 ^ e`; beyond `10 ^ 400` either way the
answer is overflow or zero whatever the digits are. -/
def roundDecimal (s : Nat) (e : Int) : Option (Nat × Int) :=
  if s = 0 then some (0, -1074)
  else if 400 < ((Nat.toDigits 10 s).length : Int) + e then none
  else if ((Nat.toDigits 10 s).length : Int) + e < -400 then some (0, -1074)
  else
    let p := scaleDown s 1 10 (-e)
    roundBinary64 p.1 p.2

/-- The search of `Number::toString` for the shortest decimal `s * 10 ^ (n0 - k)`
that reads back as `x`, nearest to `num / den` among those of that length. -/
def shortestDigits (x : Nat × Int) (num den : Nat) (n0 : Int) : Nat → Nat → Nat × Int
  | 0, k =>
    let p := scaleDown num den 10 (n0 - k)
    (roundHalfEven p.1 p.2, n0 - k)
  | fuel + 1, k =>
    let p := scaleDown num den 10 (n0 - k)
    let lo := p.1 / p.2
    let r := p.1 % p.2
    let okLo := roundDecimal lo (n0 - k) == some x
    let okHi := roundDecimal (lo + 1) (n0 - k) == some x
    let preferLo := decide (2 * r < p.2) || (decide (2 * r = p.2) && decide (lo % 2 = 0))
    if okLo && (preferLo || !okHi) then (lo, n0 - k)
    else if okHi then (lo + 1, n0 - k)
    else shortestDigits x num den n0 fuel (k + 1)

/-- Drop the zeros at the end of a digit list. -/
def stripZeros (ds : List Char) : List Char :=
  (ds.reverse.dropWhile (· = '0')).reverse

/-- The layout of `Number::toString` for the digits `ds` with the decimal point
after `n` digits. -/
def layoutNumber (ds : List Char) (n : Int) : List Char :=
  let k : Int := ds.length
  if k ≤ n ∧ n ≤ 21 then ds ++ List.replicate (n - k).toNat '0'
  else if 0 < n ∧ n ≤ 21 then ds.take n.toNat ++ '.' :: ds.drop n.toNat
  else if -6 < n ∧ n ≤ 0 then '0' :: '.' :: List.replicate (-n).toNat '0' ++ ds
  else
    let ex := n - 1
    let sign := if 0 ≤ ex then '+' else '-'
    let tail := 'e' :: sign :: Nat.toDigits 10 ex.natAbs
    match ds with
    | [] => tail
    | [d] => d :: tail
    | d :: more => d :: '.' :: more ++ tail

/-- The digits and layout `Number::toString` gives the positive binary64 value
`m * 2 ^ e`. -/
def renderBinary64 (x : Nat × Int) : List Char :=
  let v := scaleDown x.1 1 2 (-x.2)
  let n0 := floorLog 10 v.1 v.2 + 1
  let sn := shortestDigits x v.1 v.2 n0 16 1
  let all := Nat.toDigits 10 sn.1
  layoutNumber (stripZeros all) (sn.2 + all.length)

/-- The value of a run of decimal digits. -/
def digitsValue (ds : List Char) : Nat :=
  ds.foldl (fun acc c => 10 * acc + (c.toNat - 48)) 0

/-- The parts of a JSON number literal: sign, integer digits, fraction digits,
exponent sign and exponent digits; `none` when the text is not one. -/
def splitNumber (cs : List Char) : Option (Bool × List Char × List Char × Bool × List Char) :=
  let neg := cs.head? == some '-'
  let cs1 := if neg then cs.tail else cs
  let int := cs1.takeWhile Char.isDigit
  let cs2 := cs1.dropWhile Char.isDigit
  if int.isEmpty || (int.head? == some '0' && int.length != 1) then none
  else
    let hasFrac := cs2.head? == some '.'
    let frac := if hasFrac then cs2.tail.takeWhile Char.isDigit else []
    let cs3 := if hasFrac then cs2.tail.dropWhile Char.isDigit else cs2
    if hasFrac && frac.isEmpty then none
    else
      let hasExp := cs3.head? == some 'e' || cs3.head? == some 'E'
      let cs4 := if hasExp then cs3.tail else cs3
      let expNeg := hasExp && cs4.head? == some '-'
      let cs5 := if hasExp && (cs4.head? == some '-' || cs4.head? == some '+') then cs4.tail else cs4
      let ex := if hasExp then cs5.takeWhile Char.isDigit else []
      let cs6 := if hasExp then cs5.dropWhile Char.isDigit else cs5
      if (hasExp && ex.isEmpty) || !cs6.isEmpty then none
      else some (neg, int, frac, expNeg, ex)

/-- The number a JSON number literal denotes, by its canonical rendering (`-0`
for negative zero); `none` when the text is not a JSON number literal. -/
def readNumber (cs : List Char) : Option String :=
  match splitNumber cs with
  | none => none
  | some (neg, int, frac, expNeg, ex) =>
    let s := digitsValue (int ++ frac)
    let e10 : Int :=
      (if expNeg then -(digitsValue ex : Int) else (digitsValue ex : Int)) - frac.length
    match roundDecimal s e10 with
    | none => some (if neg then "-Infinity" else "Infinity")
    | some x =>
      if x.1 = 0 then some (if neg then "-0" else "0")
      else some (String.mk (if neg then '-' :: renderBinary64 x else renderBinary64 x))

/-! ### Writing -/

/-- Hexadecimal digit of a value below 16, in lower case. -/
def hexDigit (n : Nat) : Char :=
  if n < 10 then Char.ofNat (48 + n) else Char.ofNat (87 + n)

/-- One code point inside `QuoteJSONString`: the two-character escapes, `\u00xx`
for the other control characters, the character itself otherwise. -/
def quoteChar (c : Char) : List Char :=
  if c = '"' then ['\\', '"']
  else if c = '\\' then ['\\', '\\']
  else if c = '\x08' then ['\\', 'b']
  else if c = '\x0c' then ['\\', 'f']
  else if c = '\n' then ['\\', 'n']
  else if c = '\r' then ['\\', 'r']
  else if c = '\t' then ['\\', 't']
  else if c.toNat < 32 then
    ['\\', 'u', '0', '0', hexDigit (c.toNat / 16), hexDigit (c.toNat % 16)]
  else [c]

/-- The characters of a string with each one quoted. -/
def quoteChars : List Char → List Char
  | [] => []
  | c :: cs => quoteChar c ++ quoteChars cs

/-- The operation `QuoteJSONString`. -/
def quote (s : String) : List Char :=
  '"' :: (quoteChars s.data ++ ['"'])

/-- The indentation at nesting depth `d`, the gap being two spaces. -/
def indentation (d : Nat) : List Char :=
  List.replicate (2 * d) ' '

/-- The text `JSON.stringify` writes for a number: `null` when it is not
finite, its rendering otherwise (`0` for negative zero). -/
def serNumber (text : String) : List Char :=
  if text = "Infinity" ∨ text = "-Infinity" ∨ text = "NaN" then ['n', 'u', 'l', 'l']
  else (numberToString text).data

mutual
/-- The operation `SerializeJSONProperty` with gap `"  "`, at nesting depth `d`. -/
def ser (d : Nat) : Json → List Char
  | null => ['n', 'u', 'l', 'l']
  | bool b => if b then ['t', 'r', 'u', 'e'] else ['f', 'a', 'l', 's', 'e']
  | num text => serNumber text
  | str s => quote s
  | arr [] => ['[', ']']
  | arr (x :: xs) =>
    '[' :: '\n' :: (indentation (d + 1) ++ (ser (d + 1) x ++ (serItems (d + 1) xs ++
      '\n' :: (indentation d ++ [']']))))
  | obj [] => ['{', '}']
  | obj ((k, v) :: ps) =>
    '{' :: '\n' :: (indentation (d + 1) ++ (quote k ++ ':' :: ' ' :: (ser (d + 1) v ++
      (serProps (d + 1) ps ++ '\n' :: (indentation d ++ ['}'])))))
/-- The elements of an array after the first, each behind its separator. -/
def serItems (d : Nat) : List Json → List Char
  | [] => []
  | x :: xs => ',' :: '\n' :: (indentation d ++ (ser d x ++ serItems d xs))
/-- The members of an object after the first, each behind its separator. -/
def serProps (d : Nat) : List (String × Json) → List Char
  | [] => []
  | (k, v) :: ps =>
    ',' :: '\n' :: (indentation d ++ (quote k ++ ':' :: ' ' :: (ser d v ++ serProps d ps)))
end

/-- The call `JSON.stringify(value, null, 2)`. -/
def stringify (value : Json) : String :=
  String.mk (ser 0 value)

/-! ### Reading -/

/-- JSON white space. -/
def isWs (c : Char) : Bool :=
  c = ' ' || c = '\t' || c = '\n' || c = '\r'

/-- The characters a JSON number literal is made of. -/
def isNumChar (c : Char) : Bool :=
  c.isDigit || c = '-' || c = '+' || c = '.' || c = 'e' || c = 'E'

/-- The value of a hexadecimal digit. -/
def hexValue (c : Char) : Option Nat :=
  if c.isDigit then some (c.toNat - 48)
  else if 97 ≤ c.toNat ∧ c.toNat ≤ 102 then some (c.toNat - 87)
  else if 65 ≤ c.toNat ∧ c.toNat ≤ 70 then some (c.toNat - 55)
  else none

/-- The code unit of four hexadecimal digits. -/
def hex4 (a b c d : Char) : Option Nat :=
  match hexValue a, hexValue b, hexValue c, hexValue d with
  | some x, some y, some z, some w => some (4096 * x + 256 * y + 16 * z + w)
  | _, _, _, _ => none

/-- What follows a backslash inside a string: the character denoted and the rest
of the text.  A `\u` escape of a high surrogate pairs with a `\u` escape of a low
surrogate right behind it; a surrogate left alone is not a character of `String`,
and the result is `none` there. -/
def readEscape : List Char → Option (Char × List Char)
  | [] => none
  | c :: rest =>
    if c = '"' then some ('"', rest)
    else if c = '\\' then some ('\\', rest)
    else if c = '/' then some ('/', rest)
    else if c = 'b' then some ('\x08', rest)
    else if c = 'f' then some ('\x0c', rest)
    else if c = 'n' then some ('\n', rest)
    else if c = 'r' then some ('\r', rest)
    else if c = 't' then some ('\t', rest)
    else if c = 'u' then
      match rest with
      | h1 :: h2 :: h3 :: h4 :: rest1 =>
        match hex4 h1 h2 h3 h4 with
        | none => none
        | some u =>
          if u < 0xD800 ∨ 0xDFFF < u then some (Char.ofNat u, rest1)
          else if 0xDBFF < u then none
          else
            match rest1 with
            | b :: v :: l1 :: l2 :: l3 :: l4 :: rest2 =>
              if b = '\\' ∧ v = 'u' then
                match hex4 l1 l2 l3 l4 with
                | none => none
                | some w =>
                  if 0xDC00 ≤ w ∧ w ≤ 0xDFFF then
                    some (Char.ofNat (0x10000 + (u - 0xD800) * 0x400 + (w - 0xDC00)), rest2)
                  else none
              else none
            | _ => none
      | _ => none
    else none

/-- The characters of a string literal after its opening quote, up to the closing
quote: the string denoted and the rest of the text. -/
def readString : Nat → List Char → List Char → Option (List Char × List Char)
  | 0, _, _ => none
  | _ + 1, [], _ => none
  | fuel + 1, c :: rest, acc =>
    if c = '"' then some (acc, rest)
    else if c = '\\' then
      match readEscape rest with
      | none => none
      | some (ch, rest1) => readString fuel rest1 (acc ++ [ch])
    else if c.toNat < 32 then none
    else readString fuel rest (acc ++ [c])

/-- The index a property key denotes when it is an array index: a canonical
decimal numeral below `2 ^ 32 - 1`. -/
def arrayIndex (k : String) : Option Nat :=
  if k.data.all Char.isDigit ∧ k.data ≠ [] ∧ (k.data.head? ≠ some '0' ∨ k.data.length = 1)
      ∧ digitsValue k.data < 4294967295 then
    some (digitsValue k.data)
  else none

/-- The place of a new array-index key: before the first key that is not an
array index or is a greater one. -/
def insertIndexed (i : Nat) (k : String) (v : Json) :
    List (String × Json) → List (String × Json)
  | [] => [(k, v)]
  | p :: ps =>
    match arrayIndex p.1 with
    | some j => if j < i then p :: insertIndexed i k v ps else (k, v) :: p :: ps
    | none => (k, v) :: p :: ps

/-- Defining the property `k` with value `v` on an object under construction: an
existing key keeps its place and takes the new value, a new array-index key goes
among the array-index keys in ascending order, any other new key goes last. -/
def insertProp (props : List (String × Json)) (k : String) (v : Json) :
    List (String × Json) :=
  if props.any (fun p => p.1 = k) then
    props.map (fun p => if p.1 = k then (k, v) else p)
  else
    match arrayIndex k with
    | some i => insertIndexed i k v props
    | none => props ++ [(k, v)]

/-- The white space at the front of a text removed. -/
def skipWs (cs : List Char) : List Char :=
  cs.dropWhile isWs

mutual
/-- A JSON value at the front of the text: the value and the rest of the text. -/
def readValue : Nat → List Char → Option (Json × List Char)
  | 0, _ => none
  | _ + 1, [] => none
  | fuel + 1, c :: rest =>
    if c = '"' then
      match readString (rest.length + 1) rest [] with
      | none => none
      | some (s, rest1) => some (str (String.mk s), rest1)
    else if c = '[' then
      match skipWs rest with
      | [] => none
      | c1 :: rest1 =>
        if c1 = ']' then some (arr [], rest1) else
          match readItems fuel (c1 :: rest1) [] with
          | none => none
          | some (items, rest2) => some (arr items, rest2)
    else if c = '{' then
      match skipWs rest with
      | [] => none
      | c1 :: rest1 =>
        if c1 = '}' then some (obj [], rest1) else
          match readMembers fuel (c1 :: rest1) [] with
          | none => none
          | some (props, rest2) => some (obj props, rest2)
    else if c = 'n' then
      match rest with
      | 'u' :: 'l' :: 'l' :: rest1 => some (null, rest1)
      | _ => none
    else if c = 't' then
      match rest with
      | 'r' :: 'u' :: 'e' :: rest1 => some (bool true, rest1)
      | _ => none
    else if c = 'f' then
      match rest with
      | 'a' :: 'l' :: 's' :: 'e' :: rest1 => some (bool false, rest1)
      | _ => none
    else
      match readNumber ((c :: rest).takeWhile isNumChar) with
      | none => none
      | some text => some (num text, (c :: rest).dropWhile isNumChar)
/-- The elements of an array from the first on, up to the closing bracket. -/
def readItems : Nat → List Char → List Json → Option (List Json × List Char)
  | 0, _, _ => none
  | fuel + 1, cs, acc =>
    match readValue fuel cs with
    | none => none
    | some (v, rest) =>
      match skipWs rest with
      | [] => none
      | c :: rest1 =>
        if c = ',' then readItems fuel (skipWs rest1) (acc ++ [v])
        else if c = ']' then some (acc ++ [v], rest1)
        else none
/-- The members of an object from the first on, up to the closing brace. -/
def readMembers : Nat → List Char → List (String × Json) →
    Option (List (String × Json) × List Char)
  | 0, _, _ => none
  | _ + 1, [], _ => none
  | fuel + 1, c :: rest, acc =>
    if c = '"' then
      match readString (rest.length + 1) rest [] with
      | none => none
      | some (k, rest1) =>
        match skipWs rest1 with
        | [] => none
        | c1 :: rest2 =>
          if c1 = ':' then
            match readValue fuel (skipWs rest2) with
            | none => none
            | some (v, rest3) =>
              match skipWs rest3 with
              | [] => none
              | c2 :: rest4 =>
                if c2 = ',' then readMembers fuel (skipWs rest4) (insertProp acc (String.mk k) v)
                else if c2 = '}' then some (insertProp acc (String.mk k) v, rest4)
                else none
          else none
    else none
end

/-- The call `JSON.parse(text)`: `none` when it throws a `SyntaxError`, and also
for a text one of whose strings holds a surrogate left alone, which `String`
cannot hold. -/
def parse (text : String) : Option Json :=
  match readValue (text.length + 1) (skipWs text.data) with
  | none => none
  | some (v, rest) => if skipWs rest = [] then some v else none

/-! ### Values with finite numbers -/

/-- A number text that is the rendering of a finite number other than negative
zero: a JSON number literal that reads back as itself. -/
def finiteNumber (text : String) : Bool :=
  text.data.all isNumChar && (readNumber text.data == some text) && text != "-0"

/-- The order in which an object lists two of its keys: they differ, array
indices come first and ascend. -/
def keyBefore (a b : String) : Bool :=
  a != b &&
    match arrayIndex a, arrayIndex b with
    | some i, some j => decide (i < j)
    | some _, none => true
    | none, some _ => false
    | none, none => true

/-- The keys are in an order in which an object can list them. -/
def keysOrdered : List String → Bool
  | [] => true
  | k :: ks => ks.all (keyBefore k) && keysOrdered ks

mutual
/-- The values with finite numbers: each number text is the rendering of a
finite number other than negative zero, and each object lists its keys once,
array indices first and ascending, as an object enumerates them. -/
def exportable : Json → Bool
  | num text => finiteNumber text
  | arr items => exportableItems items
  | obj props => keysOrdered (props.map Prod.fst) && exportableProps props
  | _ => true
/-- Every element has finite numbers. -/
def exportableItems : List Json → Bool
  | [] => true
  | x :: xs => exportable x && exportableItems xs
/-- Every member value has finite numbers. -/
def exportableProps : List (String × Json) → Bool
  | [] => true
  | (_, v) :: ps => exportable v && exportableProps ps
end

mutual
/-- The fuel `readValue` needs on the text of a value, less one. -/
def cost : Json → Nat
  | arr items => costItems items
  | obj props => costProps props
  | _ => 0
/-- The fuel `readItems` needs on the text of the elements. -/
def costItems : List Json → Nat
  | [] => 0
  | x :: xs => cost x + costItems xs + 2
/-- The fuel `readMembers` needs on the text of the members. -/
def costProps : List (String × Json) → Nat
  | [] => 0
  | (_, v) :: ps => cost v + costProps ps + 2
end

/-- The text does not go on with a character of a number literal. -/
def delimited : List Char → Bool
  | [] => true
  | c :: _ => !isNumChar c

/-- What the text of a value starts with. -/
def startsValue (c : Char) : Bool :=
  c = '"' || c = '[' || c = '{' || c = 'n' || c = 't' || c = 'f' || isNumChar c

/-- The value reads back from its text at every depth, before every delimited
rest, with enough fuel. -/
def ReadsBack (v : Json) : Prop :=
  ∀ (d fuel : Nat) (rest : List Char), cost v < fuel → delimited rest = true →
    readValue fuel (ser d v ++ rest) = some (v, rest)

end Json

/-- The text `dataStr` that `downloadJSON` serialises from the stored result and
puts behind the download link (`ResultsView.jsx`, line 23); the data URI of line 24
carries it percent-encoded, and the browser decodes it when it saves the file. -/
def dataStr (result : Json) : String :=
  Json.stringify result

/-! ## Sample inputs -/

/-- A PDF candidate. -/
def samplePdf : File := { name := "a.pdf", type := "application/pdf", size := 1024 }

/-- A candidate that is not a PDF. -/
def sampleImage : File := { name := "a.png", type := "image/png", size := 2048 }

/-- The body `{"id":"s1","filename":"a.pdf","status":"done","confidence_score":0.92,
"extracted_fields":{"issuer":{"value":"HDFC","confidence":0.95}}}`. -/
def sampleResult : Json :=
  Json.obj [("id", Json.str "s1"), ("filename", Json.str "a.pdf"),
    ("status", Json.str "done"), ("confidence_score", Json.num "0.92"),
    ("extracted_fields", Json.obj [("issuer",
      Json.obj [("value", Json.str "HDFC"), ("confidence", Json.num "0.95")])])]

/-- The response `200` with `sampleResult` as its body. -/
def sampleOk : Response :=
  { status := 200, statusText := "OK", json := Except.ok sampleResult }

/-- The response `422 {"detail":"unsupported bank"}`. -/
def sampleUnsupported : Response :=
  { status := 422, statusText := "Unprocessable Entity",
    json := Except.ok (Json.obj [("detail", Json.str "unsupported bank")]) }

/-- The response `422 {"detail":""}`: the field is present and empty. -/
def sampleEmptyDetail : Response :=
  { status := 422, statusText := "Unprocessable Entity",
    json := Except.ok (Json.obj [("detail", Json.str "")]) }

/-- The binary64 value of the literal `0.79999`. -/
def lit_0_79999 : ℚ := 3602834665900123 / 4503599627370496

/-- The binary64 value of the literal `0.59999`. -/
def lit_0_59999 : ℚ := 337764342553253 / 562949953421312

/-- A state with a PDF selected and nothing else. -/
def selectedState : State :=
  { file := some samplePdf, loading := false, result := Json.null, error := none }

/-- Select a PDF and submit it. -/
def submitActions : List Action :=
  [Action.fileChange (some samplePdf), Action.upload]

/-- Select a PDF, submit it, receive `sampleResult`, then pick an image in the
file dialog. -/
def staleResultActions : List Action :=
  [Action.fileChange (some samplePdf), Action.upload,
    Action.settle (FetchOutcome.resolved sampleOk), Action.fileChange (some sampleImage)]

/-- Select a PDF, call `handleUpload` twice, let the first request succeed and
the second fail in transport. -/
def doubleSubmitActions : List Action :=
  [Action.fileChange (some samplePdf), Action.upload, Action.upload,
    Action.settle (FetchOutcome.resolved sampleOk),
    Action.settle (FetchOutcome.rejected "Failed to fetch")]

/-- The response `422` whose `detail` is the object `\x7b"toString":"x"\x7d`. -/
def sampleUnconvertible : Response :=
  { status := 422, statusText := "Unprocessable Entity",
    json := Except.ok (Json.obj [("detail", Json.obj [("toString", Json.str "x")])]) }

/-- A response body whose confidence score is the literal `1e999`. -/
def overflowText : String :=
  "\x7b\"id\":\"s1\",\"filename\":\"a.pdf\",\"status\":\"done\"," ++
    "\"confidence_score\":1e999,\"extracted_fields\":\x7b\x7d\x7d"

/-- The value of `overflowText`: the score has overflowed to `Infinity`. -/
def overflowResult : Json :=
  Json.obj [("id", Json.str "s1"), ("filename", Json.str "a.pdf"),
    ("status", Json.str "done"), ("confidence_score", Json.num "Infinity"),
    ("extracted_fields", Json.obj [])]

/-- The value `overflowResult` with `null` in the place of the score. -/
def nulledResult : Json :=
  Json.obj [("id", Json.str "s1"), ("filename", Json.str "a.pdf"),
    ("status", Json.str "done"), ("confidence_score", Json.null),
    ("extracted_fields", Json.obj [])]

/-- The response `200` with `overflowText` as its body. -/
def overflowOk : Response :=
  { status := 200, statusText := "OK", json := Except.ok overflowResult }

/-- The state after `sampleResult` has been received for `samplePdf`. -/
def succeededState : State :=
  { file := some samplePdf, loading := false, result := sampleResult, error := none }

/-! ## The invariant kept through the form -/

/-- What holds of every world reached through the form: one request is in
flight exactly while `loading` is set, result and error are both empty while
`loading` is set, and next to a stored result the error is empty or is the
message of a rejected selection. -/
def FormInv (w : World) : Prop :=
  w.inflight.length = (if w.st.loading then 1 else 0) ∧
  (w.st.loading = true → w.st.result = Json.null ∧ w.st.error = none) ∧
  (w.st.result ≠ Json.null →
    w.st.error = none ∨ w.st.error = some "Please select a valid PDF file")

/-! ## Lemmas -/

theorem formInv_initial : FormInv initialWorld := by
  refine ⟨?_, ?_, ?_⟩ <;> simp [initialWorld, initialState]

theorem uploadTry_error_or_ok (o : FetchOutcome) :
    (∃ data, uploadTry o = Except.ok data) ∨ (∃ message, uploadTry o = Except.error message) := by
  cases h : uploadTry o with
  | ok data => exact Or.inl ⟨data, rfl⟩
  | error message => exact Or.inr ⟨message, rfl⟩

theorem formInv_step (w : World) (a : Action) (hinv : FormInv w)
    (hen : enabled w a = true) : FormInv (step w a) := by
  obtain ⟨hlen, hload, hboth⟩ := hinv
  cases a with
  | fileChange selectedFile =>
    simp only [enabled, Bool.not_eq_true'] at hen
    simp only [step, handleFileChange]
    by_cases hp : isPdf selectedFile = true
    · simp [hp, hen, FormInv] at hlen ⊢
      exact hlen
    · simp [hp, hen, FormInv] at hlen ⊢
      exact hlen
  | upload =>
    simp only [enabled, Bool.and_eq_true, Bool.not_eq_true'] at hen
    obtain ⟨hsome, hnl⟩ := hen
    obtain ⟨f, hf⟩ := Option.isSome_iff_exists.mp hsome
    simp [hnl] at hlen
    simp [step, handleUploadStart, hf, FormInv, hlen]
  | settle o =>
    simp only [enabled, Bool.not_eq_true', List.isEmpty_eq_false] at hen
    cases hin : w.inflight with
    | nil => simp [hin] at hen
    | cons r rest =>
      have hl : w.st.loading = true := by
        by_contra hc
        simp [hc, hin] at hlen
      obtain ⟨hres, herr⟩ := hload hl
      have hrest : rest = [] := by
        simp [hl, hin] at hlen
        exact hlen
      rcases uploadTry_error_or_ok o with ⟨data, hd⟩ | ⟨message, hm⟩
      · simp [step, hin, handleUploadSettle, hd, FormInv, hrest, herr]
      · simp [step, hin, handleUploadSettle, hm, FormInv, hrest, hres]
  | reset =>
    simp only [enabled, Bool.and_eq_true, Bool.not_eq_true'] at hen
    simp [step, handleReset, FormInv, hen.2] at hlen ⊢
    exact hlen

theorem settle_only_while_loading (w : World) (a : Action)
    (hl : w.st.loading = true) (hen : enabled w a = true) :
    ∃ o, a = Action.settle o := by
  cases a with
  | settle o => exact ⟨o, rfl⟩
  | fileChange c => simp [enabled, hl] at hen
  | upload => simp [enabled, hl] at hen
  | reset => simp [enabled, hl] at hen

theorem formInv_runUI (acts : List Action) :
    ∀ (w w1 : World), FormInv w → runUI w acts = some w1 → FormInv w1 := by
  induction acts with
  | nil =>
    intro w w1 hinv hrun
    simp only [runUI, Option.some.injEq] at hrun
    exact hrun ▸ hinv
  | cons a rest ih =>
    intro w w1 hinv hrun
    by_cases hen : enabled w a = true
    · simp only [runUI, hen, if_true] at hrun
      exact ih (step w a) w1 (formInv_step w a hinv hen) hrun
    · simp [runUI, hen] at hrun

/-- When the body of a non-success response is not JSON, `response.json()`
rejects and the error is the message of that rejection. -/
theorem handleUpload_unparsable_body (s : State) (f : File) (r : Response) (m : String)
    (hfile : s.file = some f) (hok : r.ok = false) (hjson : r.json = Except.error m) :
    handleUpload s (FetchOutcome.resolved r)
      = { file := some f, loading := false, result := Json.null, error := some m } := by
  simp [handleUpload, handleUploadStart, hfile, handleUploadSettle, uploadTry, hok, hjson]

/-- When the body of a non-success response is JSON `null`, reading its
`detail` throws and the error is the message of that `TypeError`. -/
theorem handleUpload_null_body (s : State) (f : File) (r : Response)
    (hfile : s.file = some f) (hok : r.ok = false) (hjson : r.json = Except.ok Json.null) :
    (handleUpload s (FetchOutcome.resolved r)).error = some nullDetailMessage := by
  simp [handleUpload, handleUploadStart, hfile, handleUploadSettle, uploadTry, hok, hjson,
    getDetail]

/-- When `detail` is an object with an own `toString` property, building the
error throws and the error is the message of that `TypeError`. -/
theorem handleUpload_unconvertible_detail :
    (handleUpload selectedState (FetchOutcome.resolved sampleUnconvertible)).error
      = some "Cannot convert object to primitive value" := by
  decide

/-- When `fetch` rejects, the error is the message of the rejection, no result
is stored and `loading` is false. -/
theorem handleUpload_transport_failure (s : State) (f : File) (m : String)
    (hfile : s.file = some f) :
    handleUpload s (FetchOutcome.rejected m)
      = { file := some f, loading := false, result := Json.null, error := some m } := by
  simp [handleUpload, handleUploadStart, hfile, handleUploadSettle, uploadTry]

/-- Without the gating of the form, two calls of `handleUpload` can be in
flight together, and a result is then stored next to a transport error. -/
theorem ungated_result_next_to_upload_error :
    (run initialWorld doubleSubmitActions).st.result = sampleResult ∧
    (run initialWorld doubleSubmitActions).st.error = some "Failed to fetch" ∧
    runUI initialWorld doubleSubmitActions = none := by
  refine ⟨rfl, rfl, rfl⟩

/-! ## The upload handler -/

/-- C1: with a file selected, when the remote service answers with a success
status and a JSON body, `handleUpload` completes with exactly that body as the
stored result, no error, and `loading` false (the selection is kept). -/
theorem handleUpload_success (s : State) (f : File) (r : Response) (data : Json)
    (hfile : s.file = some f) (hok : r.ok = true) (hjson : r.json = Except.ok data) :
    handleUpload s (FetchOutcome.resolved r)
      = { file := some f, loading := false, result := data, error := none } := by
  simp [handleUpload, handleUploadStart, hfile, handleUploadSettle, uploadTry, hok, hjson]

/-- C1 at the response `200` with the sample body, a PDF being selected. -/
theorem handleUpload_success_witness :
    selectedState.file = some samplePdf ∧ sampleOk.ok = true ∧
    sampleOk.json = Except.ok sampleResult ∧
    handleUpload selectedState (FetchOutcome.resolved sampleOk)
      = { file := some samplePdf, loading := false, result := sampleResult, error := none } :=
  ⟨rfl, by decide, rfl,
    handleUpload_success selectedState samplePdf sampleOk sampleResult rfl (by decide) rfl⟩

/-- C2, as the spec states it, fails: the response `422 {"detail":""}` is not a
success and its `detail` field is present (the empty string), yet the error
message is not that field but `"Upload failed: Unprocessable Entity"`. -/
theorem handleUpload_detail_present_counterexample :
    sampleEmptyDetail.ok = false ∧
    sampleEmptyDetail.json = Except.ok (Json.obj [("detail", Json.str "")]) ∧
    Json.lookup "detail" [("detail", Json.str "")] = some (Json.str "") ∧
    (handleUpload selectedState (FetchOutcome.resolved sampleEmptyDetail)).error
      = some "Upload failed: Unprocessable Entity" ∧
    (handleUpload selectedState (FetchOutcome.resolved sampleEmptyDetail)).error ≠ some "" := by
  refine ⟨by decide, rfl, by simp [Json.lookup], by decide, by decide⟩

/-- C2, amended: with a file selected, for every non-success response whose
body is a JSON value other than `null`, `handleUpload` ends with the error
message equal to the `detail` field when that field is a non-empty string; equal
to `"Upload failed: "` followed by the status text when the body has no own
`detail` (objects without it, and every body that is not an object) or when the
field is falsy; and, when the field is any other truthy value, equal to what
JavaScript's string conversion makes of it, or to the message of the
`TypeError` that the conversion throws. -/
theorem handleUpload_failure_message (s : State) (f : File) (r : Response) (body : Json)
    (hfile : s.file = some f) (hok : r.ok = false)
    (hjson : r.json = Except.ok body) (hbody : body ≠ Json.null) :
    (∀ d, ownDetail body = some (Json.str d) → d ≠ "" →
      (handleUpload s (FetchOutcome.resolved r)).error = some d) ∧
    (∀ v t, ownDetail body = some v → v.truthy = true → v.toStr = Except.ok t →
      (handleUpload s (FetchOutcome.resolved r)).error = some t) ∧
    (∀ v m, ownDetail body = some v → v.truthy = true → v.toStr = Except.error m →
      (handleUpload s (FetchOutcome.resolved r)).error = some m) ∧
    (∀ v, ownDetail body = some v → v.truthy = false →
      (handleUpload s (FetchOutcome.resolved r)).error
        = some ("Upload failed: " ++ r.statusText)) ∧
    (ownDetail body = none →
      (handleUpload s (FetchOutcome.resolved r)).error
        = some ("Upload failed: " ++ r.statusText)) := by
  have hget : getDetail body = Except.ok (ownDetail body) := by
    cases body <;> first | exact absurd rfl hbody | rfl
  have hrun : (handleUpload s (FetchOutcome.resolved r)).error
      = some (match uploadErrorMessage (ownDetail body) r.statusText with
        | Except.error message => message
        | Except.ok message => message) := by
    simp only [handleUpload, handleUploadStart, hfile, handleUploadSettle, uploadTry, hok,
      hjson, hget, Bool.not_false, if_true]
    cases uploadErrorMessage (ownDetail body) r.statusText <;> rfl
  refine ⟨?_, ?_, ?_, ?_, ?_⟩
  · intro d hd hne
    rw [hrun, hd]
    simp [uploadErrorMessage, Json.truthy, Json.toStr, hne]
  · intro v t hv ht hs
    rw [hrun, hv]
    simp [uploadErrorMessage, ht, hs]
  · intro v m hv ht hs
    rw [hrun, hv]
    simp [uploadErrorMessage, ht, hs]
  · intro v hv ht
    rw [hrun, hv]
    simp [uploadErrorMessage, ht]
  · intro hnone
    rw [hrun, hnone]
    simp [uploadErrorMessage]

/-- C2 at the response `422 {"detail":"unsupported bank"}`. -/
theorem handleUpload_failure_message_witness :
    selectedState.file = some samplePdf ∧ sampleUnsupported.ok = false ∧
    sampleUnsupported.json = Except.ok (Json.obj [("detail", Json.str "unsupported bank")]) ∧
    Json.obj [("detail", Json.str "unsupported bank")] ≠ Json.null ∧
    (handleUpload selectedState (FetchOutcome.resolved sampleUnsupported)).error
      = some "unsupported bank" :=
  ⟨rfl, by decide, rfl, (by intro h; cases h),
    (handleUpload_failure_message selectedState samplePdf sampleUnsupported
      (Json.obj [("detail", Json.str "unsupported bank")]) rfl (by decide) rfl
      (by intro h; cases h)).1
      "unsupported bank" (by simp [ownDetail, Json.lookup]) (by decide)⟩

/-- C3: with no file selected, `handleUpload` issues no request, sets the error
to `'Please select a file first'`, and leaves the selection, the stored result
and the `loading` flag as they were, however the network would have answered. -/
theorem handleUpload_without_file (s : State) (o : FetchOutcome) (hfile : s.file = none) :
    (handleUploadStart s).2 = none ∧
    (∀ w : World, w.st = s → (step w Action.upload).inflight = w.inflight) ∧
    handleUpload s o = (handleUploadStart s).1 ∧
    (handleUpload s o).error = some "Please select a file first" ∧
    (handleUpload s o).file = s.file ∧
    (handleUpload s o).result = s.result ∧
    (handleUpload s o).loading = s.loading := by
  refine ⟨?_, ?_, ?_, ?_, ?_, ?_, ?_⟩ <;>
    first
    | simp [handleUpload, handleUploadStart, hfile]
    | (intro w hw; simp [step, handleUploadStart, hw, hfile])

/-- C3 at the initial state. -/
theorem handleUpload_without_file_witness :
    initialState.file = none ∧
    (handleUploadStart initialState).2 = none ∧
    (handleUpload initialState (FetchOutcome.resolved sampleOk)).error
      = some "Please select a file first" :=
  ⟨rfl,
    (handleUpload_without_file initialState (FetchOutcome.resolved sampleOk) rfl).1,
    (handleUpload_without_file initialState (FetchOutcome.resolved sampleOk) rfl).2.2.2.1⟩

/-- C4: while a submission is in flight (`loading` is true) submit does not
reach `handleUpload` a second time, the submit button that calls it being
disabled (`UploadForm.jsx`, lines 59-61).  In every world reached from the
initial one through the form, at most one upload request is in flight, one is in
flight exactly when `loading` is true, and the submit action is then disabled. -/
theorem form_single_request_in_flight (acts : List Action) (w : World)
    (hrun : runUI initialWorld acts = some w) :
    w.inflight.length ≤ 1 ∧
    (w.st.loading = true ↔ w.inflight.length = 1) ∧
    (w.st.loading = true → enabled w Action.upload = false) := by
  obtain ⟨hlen, _, _⟩ := formInv_runUI acts initialWorld w formInv_initial hrun
  cases hl : w.st.loading <;> simp [hl] at hlen <;> simp [hlen, enabled, hl]

/-- C4 after a PDF has been selected and submitted through the form. -/
theorem form_single_request_in_flight_witness :
    runUI initialWorld submitActions = some (run initialWorld submitActions) ∧
    (run initialWorld submitActions).inflight.length ≤ 1 ∧
    ((run initialWorld submitActions).st.loading = true ↔
      (run initialWorld submitActions).inflight.length = 1) ∧
    ((run initialWorld submitActions).st.loading = true →
      enabled (run initialWorld submitActions) Action.upload = false) :=
  ⟨rfl, form_single_request_in_flight submitActions (run initialWorld submitActions) rfl⟩

/-! ## Selecting and clearing -/

/-- C5: for every state and every candidate that is absent or whose media type
is not `'application/pdf'`, `handleFileChange` empties the selection and sets
the error to `'Please select a valid PDF file'` (result and `loading` stay). -/
theorem handleFileChange_rejects (s : State) (c : Option File)
    (hnot : ∀ f, c = some f → f.type ≠ "application/pdf") :
    handleFileChange s c
      = { file := none, loading := s.loading, result := s.result,
          error := some "Please select a valid PDF file" } := by
  have hp : isPdf c = false := by
    cases c with
    | none => rfl
    | some f => simpa [isPdf] using hnot f rfl
  simp [handleFileChange, hp]

/-- C5 at an image picked after a successful upload. -/
theorem handleFileChange_rejects_witness :
    (∀ f, some sampleImage = some f → f.type ≠ "application/pdf") ∧
    handleFileChange succeededState (some sampleImage)
      = { file := none, loading := false, result := sampleResult,
          error := some "Please select a valid PDF file" } :=
  ⟨by intro f hf; cases hf; decide,
    handleFileChange_rejects succeededState (some sampleImage)
      (by intro f hf; cases hf; decide)⟩

/-- C6: for every state and every candidate whose media type is
`'application/pdf'`, `handleFileChange` makes the candidate the selection and
leaves result and error empty, whatever they were (`loading` stays). -/
theorem handleFileChange_accepts (s : State) (f : File)
    (hpdf : f.type = "application/pdf") :
    handleFileChange s (some f)
      = { file := some f, loading := s.loading, result := Json.null, error := none } := by
  simp [handleFileChange, isPdf, hpdf]

/-- C6 at a PDF picked after a successful upload. -/
theorem handleFileChange_accepts_witness :
    samplePdf.type = "application/pdf" ∧
    handleFileChange succeededState (some samplePdf)
      = { file := some samplePdf, loading := false, result := Json.null, error := none } :=
  ⟨rfl, handleFileChange_accepts succeededState samplePdf rfl⟩

/-- C7: for every state, `handleReset` empties selection, result and error and
keeps `loading`; from a state with nothing in flight it gives the initial
(idle) state. -/
theorem handleReset_clears (s : State) :
    handleReset s
      = { file := none, loading := s.loading, result := Json.null, error := none } ∧
    (s.loading = false → handleReset s = initialState) := by
  refine ⟨rfl, ?_⟩
  intro hl
  simp [handleReset, initialState, hl]

/-- C7 at the state after a successful upload. -/
theorem handleReset_clears_witness :
    succeededState.loading = false ∧ handleReset succeededState = initialState :=
  ⟨rfl, (handleReset_clears succeededState).2 rfl⟩

/-! ## Result and error together -/

/-- C8, as the spec states it, fails: select a PDF, submit it, receive a
result, then pick an image in the dialog.  Every action is one the form allows;
the result is still stored and the error is set. -/
theorem result_and_error_counterexample :
    runUI initialWorld staleResultActions = some (run initialWorld staleResultActions) ∧
    (run initialWorld staleResultActions).st.result = sampleResult ∧
    (run initialWorld staleResultActions).st.result ≠ Json.null ∧
    (run initialWorld staleResultActions).st.error
      = some "Please select a valid PDF file" := by
  refine ⟨rfl, rfl, ?_, rfl⟩
  intro h
  have h2 : sampleResult = Json.null := h
  simp [sampleResult] at h2

/-- C8, amended: in every world reached from the initial one through the
controls the form leaves enabled, an error other than the message of a
rejected selection is never stored next to a result, and while `loading` is
true result and error are both empty. -/
theorem form_result_excludes_upload_error (acts : List Action) (w : World)
    (hrun : runUI initialWorld acts = some w) :
    (∀ e, w.st.error = some e → e ≠ "Please select a valid PDF file" →
      w.st.result = Json.null) ∧
    (w.st.result ≠ Json.null →
      w.st.error = none ∨ w.st.error = some "Please select a valid PDF file") ∧
    (w.st.loading = true → w.st.result = Json.null ∧ w.st.error = none) := by
  obtain ⟨_, hload, hboth⟩ := formInv_runUI acts initialWorld w formInv_initial hrun
  refine ⟨?_, hboth, hload⟩
  intro e he hne
  by_contra hres
  rcases hboth hres with h | h
  · rw [he] at h
    cases h
  · rw [he] at h
    exact hne (Option.some.inj h)

/-- C8 after a PDF has been selected and submitted through the form. -/
theorem form_result_excludes_upload_error_witness :
    runUI initialWorld submitActions = some (run initialWorld submitActions) ∧
    (run initialWorld submitActions).st.loading = true ∧
    (run initialWorld submitActions).st.result = Json.null ∧
    (run initialWorld submitActions).st.error = none :=
  ⟨rfl, rfl,
    (form_result_excludes_upload_error submitActions
      (run initialWorld submitActions) rfl).2.2 rfl⟩

/-! ## Confidence tiers -/

/-- C9: for every score, `getConfidenceLabel`, `getConfidenceColor` and
`getConfidenceBadge` pick the same tier: high exactly when the score is at
least `0.8`, medium exactly when it is at least `0.6` and below `0.8`, low
exactly when it is below `0.6`; `0.8` is high, `0.79999` and `0.6` are medium,
`0.59999` is low. -/
theorem confidence_tiers (score : ℚ) :
    ((getConfidenceLabel score = "High Confidence" ↔ score ≥ lit_0_8) ∧
      (getConfidenceColor score = "text-green-600" ↔ score ≥ lit_0_8) ∧
      (getConfidenceBadge score = "bg-green-100 text-green-800 border-green-200"
        ↔ score ≥ lit_0_8)) ∧
    ((getConfidenceLabel score = "Medium Confidence" ↔ lit_0_6 ≤ score ∧ score < lit_0_8) ∧
      (getConfidenceColor score = "text-yellow-600" ↔ lit_0_6 ≤ score ∧ score < lit_0_8) ∧
      (getConfidenceBadge score = "bg-yellow-100 text-yellow-800 border-yellow-200"
        ↔ lit_0_6 ≤ score ∧ score < lit_0_8)) ∧
    ((getConfidenceLabel score = "Low Confidence" ↔ score < lit_0_6) ∧
      (getConfidenceColor score = "text-red-600" ↔ score < lit_0_6) ∧
      (getConfidenceBadge score = "bg-red-100 text-red-800 border-red-200"
        ↔ score < lit_0_6)) ∧
    (getConfidenceLabel lit_0_8 = "High Confidence" ∧
      getConfidenceLabel lit_0_79999 = "Medium Confidence" ∧
      getConfidenceLabel lit_0_6 = "Medium Confidence" ∧
      getConfidenceLabel lit_0_59999 = "Low Confidence") := by
  have h68 : lit_0_6 < lit_0_8 := by norm_num [lit_0_6, lit_0_8]
  have hex : getConfidenceLabel lit_0_8 = "High Confidence" ∧
      getConfidenceLabel lit_0_79999 = "Medium Confidence" ∧
      getConfidenceLabel lit_0_6 = "Medium Confidence" ∧
      getConfidenceLabel lit_0_59999 = "Low Confidence" := by
    refine ⟨?_, ?_, ?_, ?_⟩ <;>
      norm_num [getConfidenceLabel, lit_0_8, lit_0_79999, lit_0_6, lit_0_59999]
  refine ⟨?_, ?_, ?_, hex⟩
  · by_cases h8 : score ≥ lit_0_8
    · simp [getConfidenceLabel, getConfidenceColor, getConfidenceBadge, h8]
    · by_cases h6 : score ≥ lit_0_6
      · simp [getConfidenceLabel, getConfidenceColor, getConfidenceBadge, h8, h6]
      · simp [getConfidenceLabel, getConfidenceColor, getConfidenceBadge, h8, h6]
  · by_cases h8 : score ≥ lit_0_8
    · have h6 : score ≥ lit_0_6 := le_of_lt (lt_of_lt_of_le h68 h8)
      have hn : ¬ score < lit_0_8 := not_lt.mpr h8
      simp [getConfidenceLabel, getConfidenceColor, getConfidenceBadge, h8, hn]
    · have hlt : score < lit_0_8 := not_le.mp h8
      by_cases h6 : score ≥ lit_0_6
      · simp [getConfidenceLabel, getConfidenceColor, getConfidenceBadge, h8, h6, hlt]
      · simp [getConfidenceLabel, getConfidenceColor, getConfidenceBadge, h8, h6]
  · by_cases h8 : score ≥ lit_0_8
    · have hn : ¬ score < lit_0_6 := not_lt.mpr (le_of_lt (lt_of_lt_of_le h68 h8))
      simp [getConfidenceLabel, getConfidenceColor, getConfidenceBadge, h8, hn]
    · by_cases h6 : score ≥ lit_0_6
      · have hn : ¬ score < lit_0_6 := not_lt.mpr h6
        simp [getConfidenceLabel, getConfidenceColor, getConfidenceBadge, h8, h6, hn]
      · have hlt : score < lit_0_6 := not_le.mp h6
        simp [getConfidenceLabel, getConfidenceColor, getConfidenceBadge, h8, h6, hlt]

/-! ## Reading back what was written -/

namespace Json

theorem skipWs_cons_of_not_ws (c : Char) (rest : List Char) (h : isWs c = false) :
    skipWs (c :: rest) = c :: rest := by
  simp [skipWs, List.dropWhile, h]

theorem skipWs_replicate (n : Nat) (rest : List Char) :
    skipWs (List.replicate n ' ' ++ rest) = skipWs rest := by
  induction n with
  | zero => simp
  | succ n ih =>
    have : isWs ' ' = true := by decide
    simp only [List.replicate_succ, List.cons_append, skipWs, List.dropWhile_cons, this, if_true]
    exact ih

theorem skipWs_indentation (d : Nat) (rest : List Char) :
    skipWs (indentation d ++ rest) = skipWs rest :=
  skipWs_replicate (2 * d) rest

theorem skipWs_newline (rest : List Char) : skipWs ('\n' :: rest) = skipWs rest := by
  have : isWs '\n' = true := by decide
  simp [skipWs, List.dropWhile_cons, this]

theorem skipWs_space (rest : List Char) : skipWs (' ' :: rest) = skipWs rest := by
  have : isWs ' ' = true := by decide
  simp [skipWs, List.dropWhile_cons, this]

theorem hex4_control : ∀ n, n < 32 →
    hex4 '0' '0' (hexDigit (n / 16)) (hexDigit (n % 16)) = some n := by
  decide

theorem quoteChar_length_pos (c : Char) : 0 < (quoteChar c).length := by
  unfold quoteChar
  split_ifs <;> simp

theorem quoteChars_length (cs : List Char) : cs.length ≤ (quoteChars cs).length := by
  induction cs with
  | nil => simp [quoteChars]
  | cons c cs ih =>
    have := quoteChar_length_pos c
    simp only [quoteChars, List.length_append, List.length_cons]
    omega

theorem readString_step_escape (fuel : Nat) (e ch : Char) (rest acc : List Char)
    (h : ∀ r, readEscape (e :: r) = some (ch, r)) :
    readString (fuel + 1) ('\\' :: e :: rest) acc = readString fuel rest (acc ++ [ch]) := by
  have h1 : ('\\' : Char) ≠ '"' := by decide
  simp [readString, h1, h rest]

theorem readString_quoteChar (fuel : Nat) (c : Char) (rest acc : List Char) :
    readString (fuel + 1) (quoteChar c ++ rest) acc = readString fuel rest (acc ++ [c]) := by
  unfold quoteChar
  split_ifs with h1 h2 h3 h4 h5 h6 h7 h8
  · subst h1
    exact readString_step_escape fuel _ _ rest acc (fun r => by simp [readEscape])
  · subst h2
    exact readString_step_escape fuel _ _ rest acc (fun r => by simp [readEscape])
  · subst h3
    exact readString_step_escape fuel _ _ rest acc (fun r => by simp [readEscape])
  · subst h4
    exact readString_step_escape fuel _ _ rest acc (fun r => by simp [readEscape])
  · subst h5
    exact readString_step_escape fuel _ _ rest acc (fun r => by simp [readEscape])
  · subst h6
    exact readString_step_escape fuel _ _ rest acc (fun r => by simp [readEscape])
  · subst h7
    exact readString_step_escape fuel _ _ rest acc (fun r => by simp [readEscape])
  · have hq : ('\\' : Char) ≠ '"' := by decide
    have hx := hex4_control c.toNat h8
    have hlt : c.toNat < 0xD800 := by omega
    simp [readString, hq, readEscape, hx, hlt]
  · simp [readString, h1, h2, h8]

theorem readString_quoteChars (cs : List Char) :
    ∀ (fuel : Nat) (acc rest : List Char), cs.length < fuel →
      readString fuel (quoteChars cs ++ '"' :: rest) acc = some (acc ++ cs, rest) := by
  induction cs with
  | nil =>
    intro fuel acc rest hf
    cases fuel with
    | zero => omega
    | succ fuel => simp [quoteChars, readString]
  | cons c cs ih =>
    intro fuel acc rest hf
    cases fuel with
    | zero => omega
    | succ fuel =>
      simp only [quoteChars, List.append_assoc]
      rw [readString_quoteChar, ih fuel (acc ++ [c]) rest (by simpa using hf)]
      simp

/-- Reading a quoted string gives the string back. -/
theorem readString_quote (s : String) (rest : List Char) :
    readString ((quoteChars s.data ++ '"' :: rest).length + 1)
      (quoteChars s.data ++ '"' :: rest) [] = some (s.data, rest) := by
  have h := readString_quoteChars s.data ((quoteChars s.data ++ '"' :: rest).length + 1) [] rest
    (by
      have := quoteChars_length s.data
      simp only [List.length_append, List.length_cons]
      omega)
  simpa using h

theorem takeWhile_numChars (t rest : List Char) (hall : t.all isNumChar = true)
    (hd : delimited rest = true) :
    (t ++ rest).takeWhile isNumChar = t ∧ (t ++ rest).dropWhile isNumChar = rest := by
  induction t with
  | nil =>
    cases rest with
    | nil => simp
    | cons c cs =>
      have hc : isNumChar c = false := by simpa [delimited] using hd
      simp [List.takeWhile, List.dropWhile, hc]
  | cons a t ih =>
    simp only [List.all_cons, Bool.and_eq_true] at hall
    obtain ⟨h1, h2⟩ := ih hall.2
    simp [List.takeWhile, List.dropWhile, hall.1, h1, h2]

theorem finiteNumber_spec (text : String) (h : finiteNumber text = true) :
    text.data.all isNumChar = true ∧ readNumber text.data = some text ∧ text ≠ "-0" := by
  simpa [finiteNumber, and_assoc] using h

theorem serNumber_finiteNumber (text : String) (h : finiteNumber text = true) :
    serNumber text = text.data := by
  obtain ⟨hall, _, hz⟩ := finiteNumber_spec text h
  unfold serNumber numberToString
  split_ifs with hn
  · exfalso
    rcases hn with hn | hn | hn <;> · subst hn; revert hall; decide
  · rfl

theorem finiteNumber_head (text : String) (h : finiteNumber text = true) :
    ∃ c cs, text.data = c :: cs ∧ isNumChar c = true := by
  obtain ⟨hall, hread, _⟩ := finiteNumber_spec text h
  cases hd : text.data with
  | nil =>
    rw [hd] at hread
    have : readNumber [] = none := by decide
    rw [this] at hread
    cases hread
  | cons c cs =>
    rw [hd] at hall
    simp only [List.all_cons, Bool.and_eq_true] at hall
    exact ⟨c, cs, rfl, hall.1⟩

theorem ser_head (d : Nat) (v : Json) (hwf : exportable v = true) :
    ∃ c cs, ser d v = c :: cs ∧ startsValue c = true := by
  cases v with
  | null => simp only [ser]; exact ⟨_, _, rfl, by decide⟩
  | bool b => cases b <;> simp only [ser] <;> exact ⟨_, _, rfl, by decide⟩
  | num text =>
    have hc : finiteNumber text = true := by simpa [exportable] using hwf
    obtain ⟨c, cs, h1, h2⟩ := finiteNumber_head text hc
    refine ⟨c, cs, ?_, ?_⟩
    · simp [ser, serNumber_finiteNumber text hc, h1]
    · simp [startsValue, h2]
  | str s => simp only [ser, quote]; exact ⟨_, _, rfl, by decide⟩
  | arr items =>
    cases items with
    | nil => simp only [ser]; exact ⟨_, _, rfl, by decide⟩
    | cons x xs => simp only [ser]; exact ⟨_, _, rfl, by decide⟩
  | obj props =>
    cases props with
    | nil => simp only [ser]; exact ⟨_, _, rfl, by decide⟩
    | cons p ps =>
      obtain ⟨k, v⟩ := p
      simp only [ser]
      exact ⟨_, _, rfl, by decide⟩

theorem startsValue_not_ws (c : Char) (h : startsValue c = true) :
    isWs c = false ∧ c ≠ ']' ∧ c ≠ '}' := by
  refine ⟨?_, ?_, ?_⟩
  · by_contra hw
    simp only [Bool.not_eq_false] at hw
    simp only [isWs, Bool.or_eq_true, decide_eq_true_eq] at hw
    rcases hw with ((hw | hw) | hw) | hw <;> · subst hw; revert h; decide
  · intro hc; subst hc; revert h; decide
  · intro hc; subst hc; revert h; decide

theorem keysOrdered_iff (ks : List String) :
    keysOrdered ks = true ↔ ks.Pairwise (fun a b => keyBefore a b = true) := by
  induction ks with
  | nil => simp [keysOrdered]
  | cons k ks ih => simp [keysOrdered, ih, List.pairwise_cons]

theorem insertIndexed_append (i : Nat) (k : String) (v : Json) (acc : List (String × Json))
    (h : ∀ p ∈ acc, ∃ j, arrayIndex p.1 = some j ∧ j < i) :
    insertIndexed i k v acc = acc ++ [(k, v)] := by
  induction acc with
  | nil => rfl
  | cons p ps ih =>
    obtain ⟨j, hj, hlt⟩ := h p (List.mem_cons_self _ _)
    have ih' := ih (fun q hq => h q (List.mem_cons_of_mem _ hq))
    simp [insertIndexed, hj, hlt, ih']

theorem insertProp_append (acc : List (String × Json)) (k : String) (v : Json)
    (h : ∀ p ∈ acc, keyBefore p.1 k = true) :
    insertProp acc k v = acc ++ [(k, v)] := by
  have hne : acc.any (fun p => decide (p.1 = k)) = false := by
    rw [List.any_eq_false]
    intro p hp
    have := h p hp
    simp only [keyBefore, Bool.and_eq_true, bne_iff_ne, ne_eq] at this
    simpa using this.1
  unfold insertProp
  rw [hne]
  simp only [Bool.false_eq_true, if_false]
  cases hk : arrayIndex k with
  | none => rfl
  | some i =>
    simp only
    apply insertIndexed_append
    intro p hp
    have := h p hp
    simp only [keyBefore, Bool.and_eq_true, hk] at this
    cases hj : arrayIndex p.1 with
    | none => simp [hj] at this
    | some j =>
      simp only [hj, decide_eq_true_eq] at this
      exact ⟨j, rfl, this.2⟩

theorem foldl_insertProp (ps : List (String × Json)) :
    ∀ acc : List (String × Json), keysOrdered ((acc ++ ps).map Prod.fst) = true →
      ps.foldl (fun a p => insertProp a p.1 p.2) acc = acc ++ ps := by
  induction ps with
  | nil => intro acc _; simp
  | cons p ps ih =>
    intro acc h
    have hp := (keysOrdered_iff _).mp h
    simp only [List.map_append, List.map_cons, List.pairwise_append, List.pairwise_cons] at hp
    have hins : insertProp acc p.1 p.2 = acc ++ [p] := by
      rw [insertProp_append acc p.1 p.2]
      intro q hq
      exact hp.2.2 q.1 (List.mem_map_of_mem _ hq) p.1 (List.mem_cons_self _ _)
    simp only [List.foldl_cons, hins]
    rw [ih (acc ++ [p]) (by simpa using h)]
    simp

theorem skipWs_ser (d : Nat) (v : Json) (rest : List Char) (hwf : exportable v = true) :
    skipWs (ser d v ++ rest) = ser d v ++ rest := by
  obtain ⟨c, cs, hc, hs⟩ := ser_head d v hwf
  rw [hc, List.cons_append]
  exact skipWs_cons_of_not_ws c _ (startsValue_not_ws c hs).1

theorem delimited_cons (c : Char) (rest : List Char) (h : isNumChar c = false) :
    delimited (c :: rest) = true := by
  simp [delimited, h]

theorem readItems_serItems (xs : List Json) :
    ∀ (x : Json) (acc : List Json) (fuel d e : Nat) (rest : List Char),
      (∀ y ∈ x :: xs, ReadsBack y ∧ exportable y = true) →
      costItems (x :: xs) ≤ fuel →
      readItems fuel (ser d x ++ (serItems d xs ++ '\n' :: (indentation e ++ ']' :: rest))) acc
        = some (acc ++ x :: xs, rest) := by
  induction xs with
  | nil =>
    intro x acc fuel d e rest hall hfuel
    cases fuel with
    | zero => simp [costItems] at hfuel
    | succ fuel =>
      have hx := (hall x (List.mem_cons_self _ _)).1
      have hv := hx d fuel ('\n' :: (indentation e ++ ']' :: rest))
        (by simp only [costItems] at hfuel; omega) (delimited_cons _ _ (by decide))
      have hws : skipWs ('\n' :: (indentation e ++ ']' :: rest)) = ']' :: rest := by
        rw [skipWs_newline, skipWs_indentation, skipWs_cons_of_not_ws _ _ (by decide)]
      have h1 : (']' : Char) ≠ ',' := by decide
      simp [readItems, serItems, hv, hws, h1]
  | cons y ys ih =>
    intro x acc fuel d e rest hall hfuel
    cases fuel with
    | zero => simp [costItems] at hfuel
    | succ fuel =>
      have hx := (hall x (List.mem_cons_self _ _)).1
      have hy := (hall y (List.mem_cons_of_mem _ (List.mem_cons_self _ _))).2
      have hrest : serItems d (y :: ys) ++ '\n' :: (indentation e ++ ']' :: rest)
          = ',' :: '\n' :: (indentation d ++ (ser d y ++
              (serItems d ys ++ '\n' :: (indentation e ++ ']' :: rest)))) := by
        simp [serItems]
      have hv := hx d fuel (',' :: '\n' :: (indentation d ++ (ser d y ++
          (serItems d ys ++ '\n' :: (indentation e ++ ']' :: rest)))))
        (by simp only [costItems] at hfuel; omega) (delimited_cons _ _ (by decide))
      have hws1 : skipWs (',' :: '\n' :: (indentation d ++ (ser d y ++
          (serItems d ys ++ '\n' :: (indentation e ++ ']' :: rest)))))
          = ',' :: '\n' :: (indentation d ++ (ser d y ++
          (serItems d ys ++ '\n' :: (indentation e ++ ']' :: rest)))) :=
        skipWs_cons_of_not_ws _ _ (by decide)
      have hws2 : skipWs ('\n' :: (indentation d ++ (ser d y ++
          (serItems d ys ++ '\n' :: (indentation e ++ ']' :: rest)))))
          = ser d y ++ (serItems d ys ++ '\n' :: (indentation e ++ ']' :: rest)) := by
        rw [skipWs_newline, skipWs_indentation, skipWs_ser d y _ hy]
      have hih := ih y (acc ++ [x]) fuel d e rest
        (fun z hz => hall z (List.mem_cons_of_mem _ hz))
        (by simp only [costItems] at hfuel ⊢; omega)
      rw [hrest]
      simp only [readItems, hv, hws1, hws2, hih, if_true]
      simp

theorem readMembers_serProps (ps : List (String × Json)) :
    ∀ (k : String) (v : Json) (acc : List (String × Json)) (fuel d e : Nat) (rest : List Char),
      (∀ p ∈ (k, v) :: ps, ReadsBack p.2 ∧ exportable p.2 = true) →
      costProps ((k, v) :: ps) ≤ fuel →
      readMembers fuel (quote k ++ ':' :: ' ' :: (ser d v ++
          (serProps d ps ++ '\n' :: (indentation e ++ '}' :: rest)))) acc
        = some (((k, v) :: ps).foldl (fun a p => insertProp a p.1 p.2) acc, rest) := by
  induction ps with
  | nil =>
    intro k v acc fuel d e rest hall hfuel
    cases fuel with
    | zero => simp [costProps] at hfuel
    | succ fuel =>
      have hx : ReadsBack v := (hall (k, v) (List.mem_cons_self _ _)).1
      have hwf : exportable v = true := (hall (k, v) (List.mem_cons_self _ _)).2
      have hv := hx d fuel ('\n' :: (indentation e ++ '}' :: rest))
        (by simp only [costProps] at hfuel; omega) (delimited_cons _ _ (by decide))
      have hws : skipWs ('\n' :: (indentation e ++ '}' :: rest)) = '}' :: rest := by
        rw [skipWs_newline, skipWs_indentation, skipWs_cons_of_not_ws _ _ (by decide)]
      have hq : quote k ++ ':' :: ' ' :: (ser d v ++
          (serProps d [] ++ '\n' :: (indentation e ++ '}' :: rest)))
          = '"' :: (quoteChars k.data ++ '"' :: (':' :: ' ' :: (ser d v ++
              '\n' :: (indentation e ++ '}' :: rest)))) := by
        simp [quote, serProps]
      have hs := readString_quote k (':' :: ' ' :: (ser d v ++
          '\n' :: (indentation e ++ '}' :: rest)))
      have hws1 : skipWs (':' :: ' ' :: (ser d v ++ '\n' :: (indentation e ++ '}' :: rest)))
          = ':' :: ' ' :: (ser d v ++ '\n' :: (indentation e ++ '}' :: rest)) :=
        skipWs_cons_of_not_ws _ _ (by decide)
      have hws2 : skipWs (' ' :: (ser d v ++ '\n' :: (indentation e ++ '}' :: rest)))
          = ser d v ++ '\n' :: (indentation e ++ '}' :: rest) := by
        rw [skipWs_space, skipWs_ser d v _ hwf]
      have h1 : ('}' : Char) ≠ ',' := by decide
      rw [hq]
      simp only [readMembers, if_true, hs, hws1, hws2, hv, hws, h1, if_false]
      simp
  | cons q qs ih =>
    obtain ⟨k2, v2⟩ := q
    intro k v acc fuel d e rest hall hfuel
    cases fuel with
    | zero => simp [costProps] at hfuel
    | succ fuel =>
      have hx : ReadsBack v := (hall (k, v) (List.mem_cons_self _ _)).1
      have hwf : exportable v = true := (hall (k, v) (List.mem_cons_self _ _)).2
      have hq : quote k ++ ':' :: ' ' :: (ser d v ++
          (serProps d ((k2, v2) :: qs) ++ '\n' :: (indentation e ++ '}' :: rest)))
          = '"' :: (quoteChars k.data ++ '"' :: (':' :: ' ' :: (ser d v ++
              (',' :: '\n' :: (indentation d ++ (quote k2 ++ ':' :: ' ' :: (ser d v2 ++
                (serProps d qs ++ '\n' :: (indentation e ++ '}' :: rest))))))))) := by
        simp [quote, serProps]
      have hv := hx d fuel (',' :: '\n' :: (indentation d ++ (quote k2 ++ ':' :: ' ' ::
          (ser d v2 ++ (serProps d qs ++ '\n' :: (indentation e ++ '}' :: rest))))))
        (by simp only [costProps] at hfuel; omega) (delimited_cons _ _ (by decide))
      have hs := readString_quote k (':' :: ' ' :: (ser d v ++
          (',' :: '\n' :: (indentation d ++ (quote k2 ++ ':' :: ' ' :: (ser d v2 ++
            (serProps d qs ++ '\n' :: (indentation e ++ '}' :: rest))))))))
      have hws1 : ∀ r : List Char, skipWs (':' :: r) = ':' :: r :=
        fun r => skipWs_cons_of_not_ws _ _ (by decide)
      have hws2 : ∀ r : List Char, skipWs (' ' :: (ser d v ++ r)) = ser d v ++ r := by
        intro r
        rw [skipWs_space, skipWs_ser d v _ hwf]
      have hws3 : ∀ r : List Char, skipWs (',' :: r) = ',' :: r :=
        fun r => skipWs_cons_of_not_ws _ _ (by decide)
      have hws4 : ∀ r : List Char,
          skipWs ('\n' :: (indentation d ++ (quote k2 ++ r))) = quote k2 ++ r := by
        intro r
        rw [skipWs_newline, skipWs_indentation]
        simp only [quote, List.cons_append]
        exact skipWs_cons_of_not_ws _ _ (by decide)
      have hih := ih k2 v2 (insertProp acc k v) fuel d e rest
        (fun z hz => hall z (List.mem_cons_of_mem _ hz))
        (by simp only [costProps] at hfuel ⊢; omega)
      rw [hq]
      simp only [readMembers, if_true, hs, hws1, hws2, hv, hws3, hws4, hih]
      simp

mutual
theorem readsBack : ∀ v : Json, exportable v = true → ReadsBack v
  | null, _ => by
    intro d fuel rest hf _
    cases fuel with
    | zero => omega
    | succ fuel => simp [ser, readValue]
  | bool b, _ => by
    intro d fuel rest hf _
    cases fuel with
    | zero => omega
    | succ fuel => cases b <;> simp [ser, readValue]
  | num text, hwf => by
    intro d fuel rest hf hd
    have hc : finiteNumber text = true := by simpa [exportable] using hwf
    obtain ⟨hall, hread, _⟩ := finiteNumber_spec text hc
    obtain ⟨c, cs, hcs, hnum⟩ := finiteNumber_head text hc
    obtain ⟨ht, hdrop⟩ := takeWhile_numChars text.data rest hall hd
    cases fuel with
    | zero => omega
    | succ fuel =>
      have h1 : c ≠ '"' := by intro h; subst h; revert hnum; decide
      have h2 : c ≠ '[' := by intro h; subst h; revert hnum; decide
      have h3 : c ≠ '{' := by intro h; subst h; revert hnum; decide
      have h4 : c ≠ 'n' := by intro h; subst h; revert hnum; decide
      have h5 : c ≠ 't' := by intro h; subst h; revert hnum; decide
      have h6 : c ≠ 'f' := by intro h; subst h; revert hnum; decide
      simp only [ser, serNumber_finiteNumber text hc]
      rw [hcs] at ht hdrop
      rw [hcs]
      simp only [List.cons_append] at ht hdrop ⊢
      simp only [readValue, h1, h2, h3, h4, h5, h6, if_false, ht, hdrop]
      rw [← hcs, hread]
  | str s, _ => by
    intro d fuel rest hf _
    cases fuel with
    | zero => omega
    | succ fuel =>
      have hq : ser d (str s) ++ rest = '"' :: (quoteChars s.data ++ '"' :: rest) := by
        simp [ser, quote]
      rw [hq]
      simp only [readValue, if_true, readString_quote s rest]
  | arr [], _ => by
    intro d fuel rest hf _
    cases fuel with
    | zero => omega
    | succ fuel =>
      have h1 : ('[' : Char) ≠ '"' := by decide
      have hws : skipWs (']' :: rest) = ']' :: rest := skipWs_cons_of_not_ws _ _ (by decide)
      simp [ser, readValue, h1, hws]
  | arr (x :: xs), hwf => by
    intro d fuel rest hf _
    have hitems := readsBack_items (x :: xs) (by simpa [exportable] using hwf)
    cases fuel with
    | zero => omega
    | succ fuel =>
      have hx := (hitems x (List.mem_cons_self _ _)).2
      obtain ⟨c, cs, hc, hs⟩ := ser_head (d + 1) x hx
      obtain ⟨hcw, hcb, _⟩ := startsValue_not_ws c hs
      have h1 : ('[' : Char) ≠ '"' := by decide
      have hr := readItems_serItems xs x [] fuel (d + 1) d rest hitems
        (by simp only [cost] at hf; omega)
      have hws : skipWs ('\n' :: (indentation (d + 1) ++ (ser (d + 1) x ++
          (serItems (d + 1) xs ++ '\n' :: (indentation d ++ ']' :: rest)))))
          = c :: (cs ++ (serItems (d + 1) xs ++ '\n' :: (indentation d ++ ']' :: rest))) := by
        rw [skipWs_newline, skipWs_indentation, skipWs_ser (d + 1) x _ hx, hc]
        rfl
      rw [hc, List.cons_append] at hr
      have hq : ser d (arr (x :: xs)) ++ rest
          = '[' :: '\n' :: (indentation (d + 1) ++ (ser (d + 1) x ++
              (serItems (d + 1) xs ++ '\n' :: (indentation d ++ ']' :: rest)))) := by
        simp [ser]
      rw [hq]
      simp only [readValue, h1, if_false, if_true, hws, hcb, hr]
      simp
  | obj [], _ => by
    intro d fuel rest hf _
    cases fuel with
    | zero => omega
    | succ fuel =>
      have h1 : ('{' : Char) ≠ '"' := by decide
      have h2 : ('{' : Char) ≠ '[' := by decide
      have hws : skipWs ('}' :: rest) = '}' :: rest := skipWs_cons_of_not_ws _ _ (by decide)
      simp [ser, readValue, h1, h2, hws]
  | obj ((k, v) :: ps), hwf => by
    intro d fuel rest hf _
    have hsplit : keysOrdered (((k, v) :: ps).map Prod.fst) = true
        ∧ exportableProps ((k, v) :: ps) = true := by
      simpa [exportable] using hwf
    have hprops := readsBack_props ((k, v) :: ps) hsplit.2
    cases fuel with
    | zero => omega
    | succ fuel =>
      have h1 : ('{' : Char) ≠ '"' := by decide
      have h2 : ('{' : Char) ≠ '[' := by decide
      have h3 : ('"' : Char) ≠ '}' := by decide
      have hr := readMembers_serProps ps k v [] fuel (d + 1) d rest hprops
        (by simp only [cost] at hf; omega)
      rw [foldl_insertProp ((k, v) :: ps) [] (by simpa using hsplit.1)] at hr
      have hws : skipWs ('\n' :: (indentation (d + 1) ++ (quote k ++ ':' :: ' ' ::
          (ser (d + 1) v ++ (serProps (d + 1) ps ++ '\n' :: (indentation d ++ '}' :: rest))))))
          = '"' :: (quoteChars k.data ++ '"' :: (':' :: ' ' ::
          (ser (d + 1) v ++ (serProps (d + 1) ps ++ '\n' :: (indentation d ++ '}' :: rest))))) := by
        rw [skipWs_newline, skipWs_indentation]
        simp only [quote, List.cons_append, List.append_assoc, List.nil_append]
        exact skipWs_cons_of_not_ws _ _ (by decide)
      have hr' : readMembers fuel ('"' :: (quoteChars k.data ++ '"' :: (':' :: ' ' ::
          (ser (d + 1) v ++ (serProps (d + 1) ps ++ '\n' :: (indentation d ++ '}' :: rest))))))
          [] = some ((k, v) :: ps, rest) := by
        simpa [quote] using hr
      have hq : ser d (obj ((k, v) :: ps)) ++ rest
          = '{' :: '\n' :: (indentation (d + 1) ++ (quote k ++ ':' :: ' ' ::
          (ser (d + 1) v ++ (serProps (d + 1) ps ++ '\n' :: (indentation d ++ '}' :: rest))))) := by
        simp [ser]
      rw [hq]
      simp only [readValue, h1, h2, h3, if_false, if_true, hws, hr']
theorem readsBack_items : ∀ xs : List Json, exportableItems xs = true →
    ∀ y ∈ xs, ReadsBack y ∧ exportable y = true
  | [], _ => by simp
  | x :: xs, hwf => by
    have hsplit : exportable x = true ∧ exportableItems xs = true := by
      simpa [exportableItems] using hwf
    intro y hy
    rcases List.mem_cons.mp hy with h | h
    · subst h
      exact ⟨readsBack y hsplit.1, hsplit.1⟩
    · exact readsBack_items xs hsplit.2 y h
theorem readsBack_props : ∀ ps : List (String × Json), exportableProps ps = true →
    ∀ p ∈ ps, ReadsBack p.2 ∧ exportable p.2 = true
  | [], _ => by simp
  | (k, v) :: ps, hwf => by
    have hsplit : exportable v = true ∧ exportableProps ps = true := by
      simpa [exportableProps] using hwf
    intro p hp
    rcases List.mem_cons.mp hp with h | h
    · subst h
      exact ⟨readsBack v hsplit.1, hsplit.1⟩
    · exact readsBack_props ps hsplit.2 p h
end

mutual
theorem cost_le_length : ∀ (d : Nat) (v : Json), cost v ≤ (ser d v).length
  | _, null => by simp [cost]
  | _, bool _ => by simp [cost]
  | _, num _ => by simp [cost]
  | _, str _ => by simp [cost]
  | _, arr [] => by simp [cost, costItems]
  | d, arr (x :: xs) => by
    have h1 := cost_le_length (d + 1) x
    have h2 := costItems_le_length (d + 1) xs
    simp only [cost, costItems, ser, List.length_cons, List.length_append, List.length_nil]
    omega
  | _, obj [] => by simp [cost, costProps]
  | d, obj ((k, v) :: ps) => by
    have h1 := cost_le_length (d + 1) v
    have h2 := costProps_le_length (d + 1) ps
    simp only [cost, costProps, ser, List.length_cons, List.length_append, List.length_nil]
    omega
theorem costItems_le_length : ∀ (d : Nat) (xs : List Json), costItems xs ≤ (serItems d xs).length
  | _, [] => by simp [costItems]
  | d, x :: xs => by
    have h1 := cost_le_length d x
    have h2 := costItems_le_length d xs
    simp only [costItems, serItems, List.length_cons, List.length_append]
    omega
theorem costProps_le_length : ∀ (d : Nat) (ps : List (String × Json)),
    costProps ps ≤ (serProps d ps).length
  | _, [] => by simp [costProps]
  | d, (k, v) :: ps => by
    have h1 := cost_le_length d v
    have h2 := costProps_le_length d ps
    simp only [costProps, serProps, List.length_cons, List.length_append]
    omega
end

theorem parse_stringify (v : Json) (hwf : exportable v = true) :
    parse (stringify v) = some v := by
  have hr := readsBack v hwf 0 ((ser 0 v).length + 1) []
    (by have := cost_le_length 0 v; omega) rfl
  have hws := skipWs_ser 0 v [] hwf
  simp only [List.append_nil] at hr hws
  have hnil : skipWs [] = [] := rfl
  simp only [parse, stringify, String.length, hws, hr, hnil, if_true]

end Json

/-! ## The exported document -/

/-- Negative zero is written as `0`: it comes back as zero. -/
theorem export_negative_zero :
    Json.parse "-0" = some (Json.num "-0") ∧
    Json.parse (dataStr (Json.num "-0")) = some (Json.num "0") := by
  refine ⟨rfl, rfl⟩

/-- C10, as the spec states it, fails: the body `overflowText` gives the score
`1e999`, which `response.json()` reads as `Infinity`; the upload stores that
value; its export writes `null` for the score, and parsing the export gives
`nulledResult`, not the stored result. -/
theorem export_overflow_counterexample :
    Json.parse overflowText = some overflowResult ∧
    (handleUpload selectedState (FetchOutcome.resolved overflowOk)).result = overflowResult ∧
    Json.parse (dataStr overflowResult) = some nulledResult ∧
    Json.parse (dataStr overflowResult) ≠ some overflowResult := by
  have hparse : Json.parse (dataStr overflowResult) = some nulledResult := rfl
  refine ⟨rfl, rfl, hparse, ?_⟩
  rw [hparse]
  intro h
  simp [nulledResult, overflowResult] at h

/-- C10, amended: for every stored result whose numbers are all finite and none
of which is negative zero, parsing the document that `downloadJSON` serialises
from it (`JSON.stringify` with two-space indentation) gives the result back. -/
theorem export_round_trip (result : Json) (hfinite : result.exportable = true) :
    Json.parse (dataStr result) = some result :=
  Json.parse_stringify result hfinite

/-- C10 at the sample result of the spec. -/
theorem export_round_trip_witness :
    sampleResult.exportable = true ∧ Json.parse (dataStr sampleResult) = some sampleResult :=
  ⟨rfl, export_round_trip sampleResult rfl⟩

end CreditCardParser
